import Mathlib

/-!
Shallow embedding of the hiring-platform backend (NestJS/TypeORM services under
`src/api/services`) used to check the natural-language specification against the
code.  Database tables are lists of rows; TypeORM `save` on a loaded entity is
modelled as replacing every row carrying the entity's primary key by the entity;
`findOne` is `List.find?`; thrown `HttpException`s become an `Except` error
whose constructor names the NestJS exception class actually thrown, carrying
the exact message string from the source.
-/

/-! ## Enums (src/db/enums) -/

/-- Role of a company membership (`CompanyRole` enum). -/
inductive CompanyRole
  | OWNER
  | ADMIN
  | RECRUITER
deriving DecidableEq, Repr

/-- Status of a company membership (`MemberStatus` enum). -/
inductive MemberStatus
  | ACTIVE
  | INVITED
  | REVOKED
deriving DecidableEq, Repr

/-- Lifecycle status of a job listing (`JobStatus` enum). -/
inductive JobStatus
  | DRAFT
  | ACTIVE
  | CLOSED
deriving DecidableEq, Repr

/-- Visibility of a job listing (`JobVisibility` enum). -/
inductive JobVisibility
  | PUBLIC
  | PRIVATE
deriving DecidableEq, Repr

/-- Status of a job application (`ApplicationStatus` enum). -/
inductive ApplicationStatus
  | APPLIED
  | ACCEPTED
  | REJECTED
  | WITHDRAWN
deriving DecidableEq, Repr

/-- Outcome of a failed service call: the NestJS exception class that the
service throws, together with the exact message string from the source. -/
inductive Err
  | notFound (msg : String)
  | badRequest (msg : String)
  | forbidden (msg : String)
  | conflict (msg : String)
deriving DecidableEq, Repr

/-! ## Generic row-store helpers

A table is a `List` of rows; each row type has a primary-key projection
`idOf`.  `updAt idOf e l` is TypeORM `repo.save(e)` for an entity `e` that was
loaded from the store: every row whose primary key equals `e`'s is overwritten
with `e` (in a real database the key is unique, so at most one row changes;
the uniqueness is carried as a `Nodup` hypothesis where proofs need it). -/

/-- TypeORM `save` of a loaded entity: overwrite the row(s) with its key. -/
def updAt {α : Type} (idOf : α → Nat) (e : α) (l : List α) : List α :=
  l.map (fun r => if idOf r = idOf e then e else r)

/-- Number of rows of `l` satisfying `P` (a `COUNT(*) WHERE P`). -/
def countP {α : Type} (P : α → Bool) (l : List α) : Nat :=
  (l.filter P).length

theorem countP_nil {α : Type} (P : α → Bool) : countP P [] = 0 := rfl

theorem countP_cons {α : Type} (P : α → Bool) (x : α) (l : List α) :
    countP P (x :: l) = (if P x then 1 else 0) + countP P l := by
  by_cases h : P x <;> simp [countP, List.filter_cons, h, Nat.add_comm]

theorem countP_append {α : Type} (P : α → Bool) (l₁ l₂ : List α) :
    countP P (l₁ ++ l₂) = countP P l₁ + countP P l₂ := by
  simp [countP, List.filter_append]

theorem countP_singleton_of_neg {α : Type} (P : α → Bool) (x : α)
    (h : P x = false) : countP P [x] = 0 := by
  simp [countP, List.filter_cons, h]

theorem countP_singleton_le {α : Type} (P : α → Bool) (x : α) :
    countP P [x] ≤ 1 := by
  rw [countP_cons, countP_nil]
  split <;> omega

theorem updAt_nil {α : Type} (idOf : α → Nat) (e : α) : updAt idOf e [] = [] := rfl

theorem updAt_cons {α : Type} (idOf : α → Nat) (e x : α) (t : List α) :
    updAt idOf e (x :: t) =
      (if idOf x = idOf e then e else x) :: updAt idOf e t := rfl

/-- `updAt` does not change the list of primary keys. -/
theorem map_idOf_updAt {α : Type} (idOf : α → Nat) (e : α) (l : List α) :
    (updAt idOf e l).map idOf = l.map idOf := by
  induction l with
  | nil => rfl
  | cons r t ih =>
      rw [updAt_cons, List.map_cons, List.map_cons, ih]
      by_cases h : idOf r = idOf e
      · rw [if_pos h, h]
      · rw [if_neg h]

/-- Saving an entity whose key occurs nowhere in the store is a no-op. -/
theorem updAt_eq_self {α : Type} (idOf : α → Nat) (e : α) {l : List α}
    (h : ∀ r ∈ l, idOf r ≠ idOf e) : updAt idOf e l = l := by
  induction l with
  | nil => rfl
  | cons x t ih =>
      rw [updAt_cons, if_neg (h x (List.mem_cons_self x t)),
        ih fun r hr => h r (List.mem_cons_of_mem x hr)]

/-- In a store with `Nodup` primary keys, any row sharing `m`'s key is `m`. -/
theorem eq_of_idOf_eq {α : Type} (idOf : α → Nat) {l : List α} {m : α}
    (hnd : (l.map idOf).Nodup) (hm : m ∈ l) :
    ∀ r ∈ l, idOf r = idOf m → r = m := by
  induction l with
  | nil => intro r hr; cases hr
  | cons x t ih =>
      rw [List.map_cons, List.nodup_cons] at hnd
      intro r hr hid
      rcases List.mem_cons.mp hr with hr | hr
      · subst hr
        rcases List.mem_cons.mp hm with hm | hm
        · rw [hm]
        · exact absurd (by rw [hid]; exact List.mem_map_of_mem idOf hm) hnd.1
      · rcases List.mem_cons.mp hm with hm | hm
        · have hmem : idOf r ∈ List.map idOf t := List.mem_map_of_mem idOf hr
          rw [hid, hm] at hmem
          exact absurd hmem hnd.1
        · exact ih hnd.2 hm r hr hid

/-- If every row with `e`'s key has the same `P`-value as `e`, saving `e`
leaves the `P`-count unchanged. -/
theorem countP_updAt_eq {α : Type} (idOf : α → Nat) (e : α) (P : α → Bool)
    {l : List α} (h : ∀ r ∈ l, idOf r = idOf e → P e = P r) :
    countP P (updAt idOf e l) = countP P l := by
  induction l with
  | nil => rfl
  | cons x t ih =>
      have ht : ∀ r ∈ t, idOf r = idOf e → P e = P r :=
        fun r hr => h r (List.mem_cons_of_mem x hr)
      rw [updAt_cons, countP_cons, countP_cons, ih ht]
      by_cases hid : idOf x = idOf e
      · rw [if_pos hid, h x (List.mem_cons_self x t) hid]
      · rw [if_neg hid]

/-- With `Nodup` primary keys, saving a single entity lowers any `P`-count by
at most one. -/
theorem countP_le_countP_updAt_add_one {α : Type} (idOf : α → Nat) (e : α)
    (P : α → Bool) {l : List α} (hnd : (l.map idOf).Nodup) :
    countP P l ≤ countP P (updAt idOf e l) + 1 := by
  induction l with
  | nil => simp [countP_nil, updAt_nil]
  | cons x t ih =>
      rw [List.map_cons, List.nodup_cons] at hnd
      rw [updAt_cons, countP_cons, countP_cons]
      by_cases hid : idOf x = idOf e
      · have hrest : updAt idOf e t = t :=
          updAt_eq_self idOf e fun r hr hre => hnd.1
            (by rw [hid, ← hre]; exact List.mem_map_of_mem idOf hr)
        rw [if_pos hid, hrest]
        by_cases hpx : P x <;> by_cases hpe : P e <;> simp [hpx, hpe] <;> omega
      · have := ih hnd.2
        rw [if_neg hid]
        by_cases hpx : P x <;> simp [hpx] <;> omega

/-- With `Nodup` primary keys, saving a single entity raises any `P`-count by
at most one. -/
theorem countP_updAt_le_countP_add_one {α : Type} (idOf : α → Nat) (e : α)
    (P : α → Bool) {l : List α} (hnd : (l.map idOf).Nodup) :
    countP P (updAt idOf e l) ≤ countP P l + 1 := by
  induction l with
  | nil => simp [countP_nil, updAt_nil]
  | cons x t ih =>
      rw [List.map_cons, List.nodup_cons] at hnd
      rw [updAt_cons, countP_cons, countP_cons]
      by_cases hid : idOf x = idOf e
      · have hrest : updAt idOf e t = t :=
          updAt_eq_self idOf e fun r hr hre => hnd.1
            (by rw [hid, ← hre]; exact List.mem_map_of_mem idOf hr)
        rw [if_pos hid, hrest]
        by_cases hpx : P x <;> by_cases hpe : P e <;> simp [hpx, hpe] <;> omega
      · have := ih hnd.2
        rw [if_neg hid]
        by_cases hpx : P x <;> simp [hpx] <;> omega

/-- Saving a row whose `P`-value dominates that of the rows it replaces never
lowers the `P`-count. -/
theorem countP_le_countP_updAt {α : Type} (idOf : α → Nat) (e : α)
    (P : α → Bool) {l : List α}
    (h : ∀ r ∈ l, idOf r = idOf e → P r = true → P e = true) :
    countP P l ≤ countP P (updAt idOf e l) := by
  induction l with
  | nil => simp [countP_nil, updAt_nil]
  | cons x t ih =>
      have ht : ∀ r ∈ t, idOf r = idOf e → P r = true → P e = true :=
        fun r hr => h r (List.mem_cons_of_mem x hr)
      have := ih ht
      rw [updAt_cons, countP_cons, countP_cons]
      by_cases hid : idOf x = idOf e
      · have hx := h x (List.mem_cons_self x t) hid
        rw [if_pos hid]
        by_cases hpx : P x
        · rw [hx hpx]; simp [hpx]; omega
        · by_cases hpe : P e <;> simp [hpx, hpe] <;> omega
      · rw [if_neg hid]
        by_cases hpx : P x <;> simp [hpx] <;> omega

/-- A map that sends every row out of `P` empties the `P`-count. -/
theorem countP_map_eq_zero {α : Type} (P : α → Bool) (f : α → α) {l : List α}
    (h : ∀ r ∈ l, P (f r) = false) :
    countP P (l.map f) = 0 := by
  induction l with
  | nil => rfl
  | cons x t ih =>
      have hx := h x (List.mem_cons_self x t)
      simp [List.map_cons, countP_cons, hx,
        ih fun r hr => h r (List.mem_cons_of_mem x hr)]

/-- A map that preserves each row's `P`-value preserves the `P`-count. -/
theorem countP_map_eq {α : Type} (P : α → Bool) (f : α → α) {l : List α}
    (h : ∀ r ∈ l, P (f r) = P r) :
    countP P (l.map f) = countP P l := by
  induction l with
  | nil => rfl
  | cons x t ih =>
      have hx := h x (List.mem_cons_self x t)
      simp [List.map_cons, countP_cons, hx,
        ih fun r hr => h r (List.mem_cons_of_mem x hr)]

/-- A successful `find?` returns a member of the list satisfying the predicate. -/
theorem find?_ok {α : Type} {p : α → Bool} {l : List α} {r : α}
    (h : l.find? p = some r) : r ∈ l ∧ p r = true :=
  ⟨List.mem_of_find?_eq_some h, List.find?_some h⟩

/-- If some member of `l` satisfies `p`, `find?` succeeds. -/
theorem find?_isSome_of_mem {α : Type} {p : α → Bool} {l : List α} {m : α}
    (hm : m ∈ l) (hp : p m = true) : ∃ r, l.find? p = some r := by
  induction l with
  | nil => cases hm
  | cons x t ih =>
      by_cases hx : p x
      · exact ⟨x, by simp [List.find?_cons, hx]⟩
      · rcases List.mem_cons.mp hm with hm | hm
        · exact absurd (hm ▸ hp) (by simpa using hx)
        · rcases ih hm with ⟨r, hr⟩
          exact ⟨r, by simp [List.find?_cons, hx, hr]⟩

/-! ## Membership table (src/db/entities/company-member.entity.ts)

A `company_members` row: unique id, company and user foreign keys, role and
status.  `invited_by` and timestamps are irrelevant to every claim and omitted. -/

/-- Row of the `company_members` table. -/
structure CompanyMember where
  id : Nat
  companyId : Nat
  userId : Nat
  role : CompanyRole
  status : MemberStatus
deriving DecidableEq, Repr

/-- `repo.save(m)` on the membership table. -/
def saveMember (e : CompanyMember) (s : List CompanyMember) : List CompanyMember :=
  updAt (·.id) e s

/-- `memberRepository.findOne({ where: { id, company: { id } } })`. -/
def findMemberByIdCompany (memberId companyId : Nat) (s : List CompanyMember) :
    Option CompanyMember :=
  s.find? (fun r => decide (r.id = memberId ∧ r.companyId = companyId))

/-- `memberRepository.count({ where: { company, role: OWNER, status: ACTIVE } })`. -/
def activeOwnerCount (companyId : Nat) (s : List CompanyMember) : Nat :=
  countP (fun r => decide (r.companyId = companyId ∧
    r.role = CompanyRole.OWNER ∧ r.status = MemberStatus.ACTIVE)) s

/-- `MemberService.updateMemberRole` (member.service.ts, lines 175-223):
look the membership up by id and company; when demoting an OWNER, refuse if
the company has at most one ACTIVE OWNER; otherwise save the new role. -/
def updateMemberRole (companyId memberId : Nat) (dtoRole : CompanyRole)
    (s : List CompanyMember) : Except Err (List CompanyMember) :=
  match findMemberByIdCompany memberId companyId s with
  | none => .error (.notFound "Membership not found")
  | some membership =>
    if membership.role = CompanyRole.OWNER ∧ dtoRole ≠ CompanyRole.OWNER then
      if activeOwnerCount companyId s ≤ 1 then
        .error (.badRequest "Cannot downgrade the last OWNER. Transfer ownership first.")
      else
        .ok (saveMember { membership with role := dtoRole } s)
    else
      .ok (saveMember { membership with role := dtoRole } s)

/-- `MemberService.revokeMember` (member.service.ts, lines 234-269):
look the membership up by id and company; if it holds OWNER and the company
has at most one ACTIVE OWNER, refuse; otherwise save status REVOKED. -/
def revokeMember (companyId memberId : Nat) (s : List CompanyMember) :
    Except Err (List CompanyMember) :=
  match findMemberByIdCompany memberId companyId s with
  | none => .error (.notFound "Membership not found")
  | some membership =>
    if membership.role = CompanyRole.OWNER ∧ activeOwnerCount companyId s ≤ 1 then
      .error (.badRequest "Cannot revoke the last OWNER.")
    else
      .ok (saveMember { membership with status := MemberStatus.REVOKED } s)

/-- `MemberService.transferOwnership` (member.service.ts, lines 284-329), the
whole body running inside one transaction: find the caller's ACTIVE OWNER
membership, find the target ACTIVE membership by id, save the target with role
OWNER, then save the (previously loaded) caller entity with role ADMIN. -/
def transferOwnership (companyId targetMemberId currentUserId : Nat)
    (s : List CompanyMember) : Except Err (List CompanyMember) :=
  match s.find? (fun r => decide (r.companyId = companyId ∧
      r.userId = currentUserId ∧ r.role = CompanyRole.OWNER ∧
      r.status = MemberStatus.ACTIVE)) with
  | none => .error (.forbidden "Only OWNER can transfer ownership")
  | some currentMembership =>
    match s.find? (fun r => decide (r.id = targetMemberId ∧
        r.companyId = companyId ∧ r.status = MemberStatus.ACTIVE)) with
    | none => .error (.notFound "Target member not found")
    | some targetMembership =>
      .ok (saveMember { currentMembership with role := CompanyRole.ADMIN }
        (saveMember { targetMembership with role := CompanyRole.OWNER } s))

/-- One revoke or role-change request against the membership table. -/
inductive MemberOp
  | roleChange (companyId memberId : Nat) (newRole : CompanyRole)
  | revoke (companyId memberId : Nat)

/-- Run one request; a thrown exception rolls the table back unchanged. -/
def applyMemberOp (s : List CompanyMember) (op : MemberOp) : List CompanyMember :=
  match op with
  | .roleChange c m r =>
      match updateMemberRole c m r s with
      | .ok s' => s'
      | .error _ => s
  | .revoke c m =>
      match revokeMember c m s with
      | .ok s' => s'
      | .error _ => s

/-- Run a sequence of revoke / role-change requests. -/
def applyMemberOps (s : List CompanyMember) (ops : List MemberOp) : List CompanyMember :=
  ops.foldl applyMemberOp s

example :
    revokeMember 0 1
      [⟨1, 0, 7, CompanyRole.OWNER, MemberStatus.ACTIVE⟩] =
    .error (.badRequest "Cannot revoke the last OWNER.") := rfl

example :
    transferOwnership 0 1 7
      [⟨1, 0, 7, CompanyRole.OWNER, MemberStatus.ACTIVE⟩] =
    .ok [⟨1, 0, 7, CompanyRole.ADMIN, MemberStatus.ACTIVE⟩] := rfl

/-! ## Last-OWNER protection (claim C1) -/

/-- The `COUNT` predicate behind `activeOwnerCount`. -/
def isActiveOwner (companyId : Nat) (r : CompanyMember) : Bool :=
  decide (r.companyId = companyId ∧ r.role = CompanyRole.OWNER ∧
    r.status = MemberStatus.ACTIVE)

theorem activeOwnerCount_eq_countP (companyId : Nat) (s : List CompanyMember) :
    activeOwnerCount companyId s = countP (isActiveOwner companyId) s := rfl

/-- Inversion of a successful `updateMemberRole`: the membership was found,
the result is that row saved with the new role, and when an OWNER was demoted
the company had at least two ACTIVE OWNER rows. -/
theorem updateMemberRole_ok_inv {companyId memberId : Nat} {dtoRole : CompanyRole}
    {s s' : List CompanyMember}
    (h : updateMemberRole companyId memberId dtoRole s = .ok s') :
    ∃ m, findMemberByIdCompany memberId companyId s = some m ∧
      s' = saveMember { m with role := dtoRole } s ∧
      (m.role = CompanyRole.OWNER → dtoRole ≠ CompanyRole.OWNER →
        2 ≤ activeOwnerCount companyId s) := by
  unfold updateMemberRole at h
  cases hfind : findMemberByIdCompany memberId companyId s with
  | none => simp only [hfind] at h; cases h
  | some m =>
      simp only [hfind] at h
      refine ⟨m, rfl, ?_, ?_⟩
      · by_cases hdemote : m.role = CompanyRole.OWNER ∧ dtoRole ≠ CompanyRole.OWNER
        · rw [if_pos hdemote] at h
          by_cases hcnt : activeOwnerCount companyId s ≤ 1
          · rw [if_pos hcnt] at h; cases h
          · rw [if_neg hcnt] at h; exact (Except.ok.inj h).symm
        · rw [if_neg hdemote] at h; exact (Except.ok.inj h).symm
      · intro howner hrole
        by_cases hcnt : activeOwnerCount companyId s ≤ 1
        · rw [if_pos ⟨howner, hrole⟩, if_pos hcnt] at h; cases h
        · omega

/-- Inversion of a successful `revokeMember`: the membership was found, the
result is that row saved with status REVOKED, and when it held OWNER the
company had at least two ACTIVE OWNER rows. -/
theorem revokeMember_ok_inv {companyId memberId : Nat} {s s' : List CompanyMember}
    (h : revokeMember companyId memberId s = .ok s') :
    ∃ m, findMemberByIdCompany memberId companyId s = some m ∧
      s' = saveMember { m with status := MemberStatus.REVOKED } s ∧
      (m.role = CompanyRole.OWNER → 2 ≤ activeOwnerCount companyId s) := by
  unfold revokeMember at h
  cases hfind : findMemberByIdCompany memberId companyId s with
  | none => simp only [hfind] at h; cases h
  | some m =>
      simp only [hfind] at h
      by_cases hguard : m.role = CompanyRole.OWNER ∧ activeOwnerCount companyId s ≤ 1
      · rw [if_pos hguard] at h; cases h
      · rw [if_neg hguard] at h
        refine ⟨m, rfl, (Except.ok.inj h).symm, fun howner => ?_⟩
        by_cases hcnt : activeOwnerCount companyId s ≤ 1
        · exact absurd ⟨howner, hcnt⟩ hguard
        · omega

/-- A single revoke or role-change request never removes the last ACTIVE OWNER
of any company. -/
theorem activeOwner_preserved_one (s : List CompanyMember) (c : Nat) (op : MemberOp)
    (hnd : (s.map (·.id)).Nodup) (h1 : 1 ≤ activeOwnerCount c s) :
    1 ≤ activeOwnerCount c (applyMemberOp s op) := by
  cases op with
  | roleChange c' mid nr =>
      cases heq : updateMemberRole c' mid nr s with
      | error e => simpa [applyMemberOp, heq] using h1
      | ok s' =>
          obtain ⟨m, hfind, hs', hguard⟩ := updateMemberRole_ok_inv heq
          obtain ⟨hmem, hpred⟩ := find?_ok hfind
          have hpred' : m.id = mid ∧ m.companyId = c' := of_decide_eq_true hpred
          simp only [applyMemberOp, heq]
          rw [hs', activeOwnerCount_eq_countP] at *
          by_cases hdemote : m.role = CompanyRole.OWNER ∧ nr ≠ CompanyRole.OWNER
          · by_cases hcc : c' = c
            · have h2 := hguard hdemote.1 hdemote.2
              rw [hcc] at h2
              have hle := countP_le_countP_updAt_add_one (·.id)
                { m with role := nr } (isActiveOwner c) hnd
              unfold saveMember; omega
            · have hmono := countP_le_countP_updAt (·.id)
                { m with role := nr } (isActiveOwner c) (l := s) ?_
              · unfold saveMember; omega
              · intro r hr hid hP
                have hrm : r = m := eq_of_idOf_eq (·.id) hnd hmem r hr hid
                have hPm : isActiveOwner c m = true := hrm ▸ hP
                have := (of_decide_eq_true hPm).1
                exact absurd (hpred'.2 ▸ this) hcc
          · have hmono := countP_le_countP_updAt (·.id)
              { m with role := nr } (isActiveOwner c) (l := s) ?_
            · unfold saveMember; omega
            · intro r hr hid hP
              have hrm : r = m := eq_of_idOf_eq (·.id) hnd hmem r hr hid
              have hPm : isActiveOwner c m = true := hrm ▸ hP
              obtain ⟨hc, hrole, hst⟩ := of_decide_eq_true hPm
              have hnr : nr = CompanyRole.OWNER := by
                by_contra hne
                exact hdemote ⟨hrole, hne⟩
              exact decide_eq_true ⟨hc, hnr, hst⟩
  | revoke c' mid =>
      cases heq : revokeMember c' mid s with
      | error e => simpa [applyMemberOp, heq] using h1
      | ok s' =>
          obtain ⟨m, hfind, hs', hguard⟩ := revokeMember_ok_inv heq
          obtain ⟨hmem, hpred⟩ := find?_ok hfind
          have hpred' : m.id = mid ∧ m.companyId = c' := of_decide_eq_true hpred
          simp only [applyMemberOp, heq]
          rw [hs', activeOwnerCount_eq_countP] at *
          by_cases howner : m.role = CompanyRole.OWNER
          · by_cases hcc : c' = c
            · have h2 := hguard howner
              rw [hcc] at h2
              have hle := countP_le_countP_updAt_add_one (·.id)
                { m with status := MemberStatus.REVOKED } (isActiveOwner c) hnd
              unfold saveMember; omega
            · have hmono := countP_le_countP_updAt (·.id)
                { m with status := MemberStatus.REVOKED } (isActiveOwner c) (l := s) ?_
              · unfold saveMember; omega
              · intro r hr hid hP
                have hrm : r = m := eq_of_idOf_eq (·.id) hnd hmem r hr hid
                have hPm : isActiveOwner c m = true := hrm ▸ hP
                have := (of_decide_eq_true hPm).1
                exact absurd (hpred'.2 ▸ this) hcc
          · have hmono := countP_le_countP_updAt (·.id)
              { m with status := MemberStatus.REVOKED } (isActiveOwner c) (l := s) ?_
            · unfold saveMember; omega
            · intro r hr hid hP
              have hrm : r = m := eq_of_idOf_eq (·.id) hnd hmem r hr hid
              have hPm : isActiveOwner c m = true := hrm ▸ hP
              exact absurd (of_decide_eq_true hPm).2.1 howner

/-- A single request keeps the list of membership primary keys unchanged. -/
theorem applyMemberOp_ids (s : List CompanyMember) (op : MemberOp) :
    (applyMemberOp s op).map (·.id) = s.map (·.id) := by
  cases op with
  | roleChange c' mid nr =>
      cases heq : updateMemberRole c' mid nr s with
      | error e => simp [applyMemberOp, heq]
      | ok s' =>
          obtain ⟨m, _, hs', _⟩ := updateMemberRole_ok_inv heq
          simp only [applyMemberOp, heq]
          rw [hs']
          exact map_idOf_updAt (·.id) _ s
  | revoke c' mid =>
      cases heq : revokeMember c' mid s with
      | error e => simp [applyMemberOp, heq]
      | ok s' =>
          obtain ⟨m, _, hs', _⟩ := revokeMember_ok_inv heq
          simp only [applyMemberOp, heq]
          rw [hs']
          exact map_idOf_updAt (·.id) _ s

/-- Sequences of requests preserve the ACTIVE-OWNER lower bound. -/
theorem activeOwner_preserved_many (ops : List MemberOp) :
    ∀ s : List CompanyMember, ∀ c : Nat, (s.map (·.id)).Nodup →
      1 ≤ activeOwnerCount c s →
      1 ≤ activeOwnerCount c (applyMemberOps s ops) := by
  induction ops with
  | nil => intro s c _ h1; exact h1
  | cons op rest ih =>
      intro s c hnd h1
      have hstep := activeOwner_preserved_one s c op hnd h1
      have hnd' : ((applyMemberOp s op).map (·.id)).Nodup := by
        rw [applyMemberOp_ids]; exact hnd
      exact ih (applyMemberOp s op) c hnd' hstep

/-- Scenario A half of claim C1: with a unique ACTIVE OWNER membership `m`,
revoking `m` throws (`BadRequestException "Cannot revoke the last OWNER."`),
so the table, and in particular `m`'s ACTIVE status, is left unchanged. -/
theorem revoke_last_owner_rejected (s : List CompanyMember) (c : Nat)
    (m : CompanyMember) (hnd : (s.map (·.id)).Nodup) (hm : m ∈ s)
    (hc : m.companyId = c) (hrole : m.role = CompanyRole.OWNER)
    (hcnt : activeOwnerCount c s = 1) :
    revokeMember c m.id s = .error (.badRequest "Cannot revoke the last OWNER.") := by
  have hpm : (fun r => decide (r.id = m.id ∧ r.companyId = c)) m = true :=
    decide_eq_true ⟨rfl, hc⟩
  obtain ⟨r, hr⟩ :=
    find?_isSome_of_mem (p := fun r => decide (r.id = m.id ∧ r.companyId = c)) hm hpm
  obtain ⟨hrmem, hrpred⟩ := find?_ok hr
  have hrm : r = m :=
    eq_of_idOf_eq (·.id) hnd hm r hrmem (of_decide_eq_true hrpred).1
  unfold revokeMember findMemberByIdCompany
  rw [hr, hrm]
  show (if m.role = CompanyRole.OWNER ∧ activeOwnerCount c s ≤ 1 then
      Except.error (Err.badRequest "Cannot revoke the last OWNER.")
    else Except.ok (saveMember { m with status := MemberStatus.REVOKED } s)) =
    Except.error (Err.badRequest "Cannot revoke the last OWNER.")
  rw [if_pos ⟨hrole, by omega⟩]

/-- C1.  For every tenant with at least one ACTIVE OWNER membership, no
sequence of revoke-member and role-change operations can reduce the tenant's
count of ACTIVE OWNER memberships to zero; and when the tenant has exactly one
ACTIVE OWNER membership `m`, revoking `m` fails with the business-rule error
(the spec's Conflict category, thrown by the code as
`BadRequestException "Cannot revoke the last OWNER."`) and, the transaction
having thrown, `m`'s status remains ACTIVE. -/
theorem claim_C1_last_owner_invariant (s : List CompanyMember) (c : Nat)
    (ops : List MemberOp) (hnd : (s.map (·.id)).Nodup)
    (h1 : 1 ≤ activeOwnerCount c s) :
    1 ≤ activeOwnerCount c (applyMemberOps s ops) ∧
    (∀ m ∈ s, m.companyId = c → m.role = CompanyRole.OWNER →
      activeOwnerCount c s = 1 →
      revokeMember c m.id s =
        .error (.badRequest "Cannot revoke the last OWNER.") ∧
      applyMemberOp s (.revoke c m.id) = s) := by
  refine ⟨activeOwner_preserved_many ops s c hnd h1, ?_⟩
  intro m hm hc hrole hcnt
  have herr := revoke_last_owner_rejected s c m hnd hm hc hrole hcnt
  exact ⟨herr, by simp [applyMemberOp, herr]⟩

/-- Concrete membership table for the C1 witness: company 0 has ACTIVE OWNER
membership 1 (user 7) and ACTIVE ADMIN membership 2 (user 8). -/
def c1Table : List CompanyMember :=
  [⟨1, 0, 7, CompanyRole.OWNER, MemberStatus.ACTIVE⟩,
   ⟨2, 0, 8, CompanyRole.ADMIN, MemberStatus.ACTIVE⟩]

/-- Witness for C1 at the concrete table `c1Table`, running a role-change and
a revoke against it. -/
theorem claim_C1_witness :
    ((c1Table.map (·.id)).Nodup ∧ 1 ≤ activeOwnerCount 0 c1Table) ∧
    (1 ≤ activeOwnerCount 0 (applyMemberOps c1Table
        [.roleChange 0 1 CompanyRole.RECRUITER, .revoke 0 1]) ∧
      (∀ m ∈ c1Table, m.companyId = 0 → m.role = CompanyRole.OWNER →
        activeOwnerCount 0 c1Table = 1 →
        revokeMember 0 m.id c1Table =
          .error (.badRequest "Cannot revoke the last OWNER.") ∧
        applyMemberOp c1Table (.revoke 0 m.id) = c1Table)) :=
  ⟨⟨by decide, by decide⟩,
    claim_C1_last_owner_invariant c1Table 0
      [.roleChange 0 1 CompanyRole.RECRUITER, .revoke 0 1]
      (by decide) (by decide)⟩

/-! ## Ownership transfer (claim C2) -/

/-- C2 fails on the code: when the initiating OWNER names their own membership
as the transfer target, `transferOwnership` first saves the target entity with
role OWNER and then saves the separately loaded current-owner entity with role
ADMIN; on the same row the second save wins, so the transaction commits with
the sole OWNER demoted to ADMIN and the tenant left with zero ACTIVE OWNER
memberships.  Evaluated here at the one-membership table: the call succeeds
and the ACTIVE OWNER count drops from one to zero. -/
theorem claim_C2_self_transfer_drops_owner :
    transferOwnership 0 1 7
        [⟨1, 0, 7, CompanyRole.OWNER, MemberStatus.ACTIVE⟩] =
      .ok [⟨1, 0, 7, CompanyRole.ADMIN, MemberStatus.ACTIVE⟩] ∧
    1 ≤ activeOwnerCount 0 [⟨1, 0, 7, CompanyRole.OWNER, MemberStatus.ACTIVE⟩] ∧
    activeOwnerCount 0 [⟨1, 0, 7, CompanyRole.ADMIN, MemberStatus.ACTIVE⟩] = 0 :=
  ⟨rfl, by decide, by decide⟩

/-! ## Job listings (src/db/entities/job-listing.entity.ts, job.service.ts)

Timestamps are integers; `application_deadline` and `deleted_at` are nullable.
Fields irrelevant to every claim (description, salary, location, employment
type, application mode, creator) are omitted. -/

/-- Row of the `job_listings` table. -/
structure JobListing where
  id : Nat
  companyId : Nat
  title : String
  status : JobStatus
  visibility : JobVisibility
  application_deadline : Option Int
  screening_questions_json : Option (List String)
  deleted_at : Option Int
deriving DecidableEq, Repr

/-- `application_deadline IS NOT NULL AND application_deadline <= now`. -/
def deadlineLE (j : JobListing) (now : Int) : Bool :=
  match j.application_deadline with
  | some d => decide (d ≤ now)
  | none => false

/-- Optional company scope of the auto-close bulk update. -/
def inScope (companyId : Option Nat) (j : JobListing) : Bool :=
  match companyId with
  | some c => decide (j.companyId = c)
  | none => true

/-- `skip ((page - 1) * limit)` / `take limit` pagination applied to a result
set (`paginate` in src/libs/pagination.ts only wraps the slice in metadata). -/
def paginateList {α : Type} (page limit : Nat) (l : List α) : List α :=
  (l.drop ((page - 1) * limit)).take limit

/-- `JobService.autoCloseExpiredJobs` (job.service.ts, lines 324-342): one
set-based UPDATE putting status CLOSED on every non-deleted ACTIVE row whose
deadline is non-null and has passed, optionally scoped to one company. -/
def autoCloseExpiredJobs (now : Int) (companyId : Option Nat)
    (jobs : List JobListing) : List JobListing :=
  jobs.map (fun j =>
    if decide (j.status = JobStatus.ACTIVE) && deadlineLE j now &&
        decide (j.deleted_at = none) && inScope companyId j then
      { j with status := JobStatus.CLOSED }
    else j)

/-- `JobService.findAll` (job.service.ts, lines 153-168): run the auto-close
scoped to the company, then return the non-deleted rows of the company,
paginated.  Result: the updated table and the served page. -/
def JobService.findAll (companyId page limit : Nat) (now : Int)
    (jobs : List JobListing) : List JobListing × List JobListing :=
  let jobs' := autoCloseExpiredJobs now (some companyId) jobs
  (jobs', paginateList page limit (jobs'.filter (fun j =>
    decide (j.companyId = companyId ∧ j.deleted_at = none))))

/-- `JobService.findPublicJobs` (job.service.ts, lines 206-241): despite its
own doc comment ("Also auto-closes expired jobs globally"), the method never
calls `autoCloseExpiredJobs`; it only selects PUBLIC, ACTIVE, non-deleted rows
and paginates them (the subsequent field mapping drops company internals and
is irrelevant to the claims).  No write happens, so it takes the table
read-only and returns just the served page. -/
def JobService.findPublicJobs (page limit : Nat) (jobs : List JobListing) :
    List JobListing :=
  paginateList page limit (jobs.filter (fun j =>
    decide (j.visibility = JobVisibility.PUBLIC ∧ j.status = JobStatus.ACTIVE ∧
      j.deleted_at = none)))

/-- `JobService.findOne` (job.service.ts, lines 180-194): fetch by id scoped
to the company and to non-deleted rows; absent or out-of-scope rows raise
`NotFoundException "Job not found"`. -/
def JobService.findOne (companyId jobId : Nat) (jobs : List JobListing) :
    Except Err JobListing :=
  match jobs.find? (fun j => decide (j.id = jobId ∧ j.companyId = companyId ∧
      j.deleted_at = none)) with
  | none => .error (.notFound "Job not found")
  | some j => .ok j

/-- A PUBLIC, ACTIVE, non-deleted job whose deadline (-1) is in the past at
time 0. -/
def expiredPublicJob : JobListing :=
  ⟨0, 0, "dev", JobStatus.ACTIVE, JobVisibility.PUBLIC, some (-1), none, none⟩

/-- C3 fails on the code for the public listing: the claim (and the method's
own doc comment) requires every listing read to close expired ACTIVE postings
first, but `findPublicJobs` performs no auto-close, so it serves a posting
whose deadline has passed with status still ACTIVE and writes nothing.  The
tenant-scoped `findAll`, by contrast, does close it, which the last conjunct
shows at the same input. -/
theorem claim_C3_public_listing_misses_autoclose :
    deadlineLE expiredPublicJob 0 = true ∧
    expiredPublicJob.status = JobStatus.ACTIVE ∧
    JobService.findPublicJobs 1 10 [expiredPublicJob] = [expiredPublicJob] ∧
    autoCloseExpiredJobs 0 none [expiredPublicJob] =
      [{ expiredPublicJob with status := JobStatus.CLOSED }] ∧
    (JobService.findAll 0 1 10 0 [expiredPublicJob]).2 =
      [{ expiredPublicJob with status := JobStatus.CLOSED }] := by
  refine ⟨rfl, rfl, rfl, rfl, rfl⟩

/-! ## Resumes (src/db/entities/resume.entity.ts, resume.service.ts)

`ResumeService.create` uploads the file to external storage and then inserts
the row; the storage bucket is modelled as a list of issued storage keys so
that "fails before uploading or inserting anything" is visible in the state.
Storage keys are drawn from the same fresh-id counter as row ids. -/

/-- Row of the `resumes` table. -/
structure Resume where
  id : Nat
  userId : Nat
  title : String
  storage_key : Nat
  is_primary : Bool
deriving DecidableEq, Repr

/-- Database plus external storage bucket plus a fresh-id counter. -/
structure ResumeState where
  resumes : List Resume
  storage : List Nat
  nextId : Nat
deriving DecidableEq, Repr

/-- `const MAX_RESUMES_PER_USER = 10` (resume.service.ts, line 20). -/
def MAX_RESUMES_PER_USER : Nat := 10

/-- `ResumeService.create` (resume.service.ts, lines 33-113): refuse when the
user already has `MAX_RESUMES_PER_USER` resumes (before any upload or
insert); otherwise upload the file, then — inside one transaction when
`is_primary` was requested — demote every primary resume of the user and
insert the new row. -/
def ResumeService.create (userId : Nat) (title : String) (isPrimary : Bool)
    (st : ResumeState) : Except Err (ResumeState × Resume) :=
  let existingCount := countP (fun r => decide (r.userId = userId)) st.resumes
  if MAX_RESUMES_PER_USER ≤ existingCount then
    .error (.badRequest "Maximum resume limit reached (10)")
  else
    let storageKey := st.nextId
    let storage' := st.storage ++ [storageKey]
    if isPrimary then
      let demoted := st.resumes.map (fun r =>
        if decide (r.userId = userId) && r.is_primary then
          { r with is_primary := false }
        else r)
      let resume : Resume := ⟨st.nextId, userId, title, storageKey, true⟩
      .ok ({ resumes := demoted ++ [resume], storage := storage',
             nextId := st.nextId + 1 }, resume)
    else
      let resume : Resume := ⟨st.nextId, userId, title, storageKey, false⟩
      .ok ({ resumes := st.resumes ++ [resume], storage := storage',
             nextId := st.nextId + 1 }, resume)

/-- `ResumeService.setPrimary` (resume.service.ts, lines 126-151): find the
resume by id and owner (absent raises `NotFoundException "Resume not found"`),
then inside one transaction demote every resume of the user and save the
selected entity with `is_primary = true`. -/
def ResumeService.setPrimary (userId resumeId : Nat) (st : ResumeState) :
    Except Err (ResumeState × Resume) :=
  match st.resumes.find? (fun r => decide (r.id = resumeId ∧ r.userId = userId)) with
  | none => .error (.notFound "Resume not found")
  | some resume =>
      let demoted := st.resumes.map (fun r =>
        if decide (r.userId = userId) then { r with is_primary := false } else r)
      let promoted : Resume := { resume with is_primary := true }
      .ok ({ st with resumes := updAt (·.id) promoted demoted }, promoted)

/-- One resume-create or set-primary request. -/
inductive ResumeOp
  | createOp (userId : Nat) (title : String) (isPrimary : Bool)
  | setPrimaryOp (userId resumeId : Nat)

/-- Run one request; a thrown exception rolls the state back unchanged. -/
def applyResumeOp (st : ResumeState) (op : ResumeOp) : ResumeState :=
  match op with
  | .createOp u t p =>
      match ResumeService.create u t p st with
      | .ok (st', _) => st'
      | .error _ => st
  | .setPrimaryOp u rid =>
      match ResumeService.setPrimary u rid st with
      | .ok (st', _) => st'
      | .error _ => st

/-- Run a sequence of resume requests. -/
def applyResumeOps (st : ResumeState) (ops : List ResumeOp) : ResumeState :=
  ops.foldl applyResumeOp st

/-- Number of resumes of user `u` with `is_primary = true`. -/
def primaryCountOf (u : Nat) (st : ResumeState) : Nat :=
  countP (fun r => decide (r.userId = u ∧ r.is_primary = true)) st.resumes

/-- Number of resumes owned by user `u`. -/
def resumeCountOf (u : Nat) (st : ResumeState) : Nat :=
  countP (fun r => decide (r.userId = u)) st.resumes

/-- Well-formedness the database guarantees: row ids are unique, and every
issued id is below the fresh-id counter. -/
def ResumeWF (st : ResumeState) : Prop :=
  (∀ r ∈ st.resumes, r.id < st.nextId) ∧ (st.resumes.map (·.id)).Nodup

example :
    ResumeService.create 5 "cv" true ⟨[⟨0, 5, "old", 0, true⟩], [0], 1⟩ =
      .ok (⟨[⟨0, 5, "old", 0, false⟩, ⟨1, 5, "cv", 1, true⟩], [0, 1], 2⟩,
        ⟨1, 5, "cv", 1, true⟩) := rfl

/-- A map that preserves primary keys preserves the key list. -/
theorem map_idOf_map {α : Type} (idOf : α → Nat) (f : α → α) (l : List α)
    (h : ∀ r, idOf (f r) = idOf r) : (l.map f).map idOf = l.map idOf := by
  induction l with
  | nil => rfl
  | cons x t ih => rw [List.map_cons, List.map_cons, List.map_cons, h, ih]

/-- Key-list equality transports a key bound between stores. -/
theorem idOf_lt_of_map_eq {α : Type} (idOf : α → Nat) {l l' : List α} {n : Nat}
    (heq : l'.map idOf = l.map idOf) (h : ∀ r ∈ l, idOf r < n) :
    ∀ r ∈ l', idOf r < n := by
  intro r hr
  have : idOf r ∈ l.map idOf := heq ▸ List.mem_map_of_mem idOf hr
  obtain ⟨r0, hr0, hid⟩ := List.mem_map.mp this
  exact hid ▸ h r0 hr0

/-- Inversion of a successful `ResumeService.create`. -/
theorem ResumeService.create_ok_inv {u : Nat} {t : String} {p : Bool}
    {st st' : ResumeState} {res : Resume}
    (h : ResumeService.create u t p st = .ok (st', res)) :
    countP (fun r => decide (r.userId = u)) st.resumes < MAX_RESUMES_PER_USER ∧
    st'.nextId = st.nextId + 1 ∧
    ((p = true ∧
        st'.resumes = (st.resumes.map (fun r =>
          if decide (r.userId = u) && r.is_primary then
            { r with is_primary := false }
          else r)) ++ [⟨st.nextId, u, t, st.nextId, true⟩]) ∨
      (p = false ∧
        st'.resumes = st.resumes ++ [⟨st.nextId, u, t, st.nextId, false⟩])) := by
  unfold ResumeService.create at h
  by_cases hmax : MAX_RESUMES_PER_USER ≤ countP (fun r => decide (r.userId = u)) st.resumes
  · simp only [if_pos hmax] at h
    cases h
  · simp only [if_neg hmax] at h
    cases p with
    | true =>
        rw [if_pos rfl] at h
        obtain ⟨h1, h2⟩ := Prod.mk.injEq .. ▸ Except.ok.inj h
        exact ⟨by omega, by rw [← h1], Or.inl ⟨rfl, by rw [← h1]⟩⟩
    | false =>
        rw [if_neg Bool.false_ne_true] at h
        obtain ⟨h1, h2⟩ := Prod.mk.injEq .. ▸ Except.ok.inj h
        exact ⟨by omega, by rw [← h1], Or.inr ⟨rfl, by rw [← h1]⟩⟩

/-- Inversion of a successful `ResumeService.setPrimary`. -/
theorem ResumeService.setPrimary_ok_inv {u rid : Nat} {st st' : ResumeState}
    {res : Resume}
    (h : ResumeService.setPrimary u rid st = .ok (st', res)) :
    ∃ resume, st.resumes.find?
        (fun r => decide (r.id = rid ∧ r.userId = u)) = some resume ∧
      st'.resumes = updAt (·.id) { resume with is_primary := true }
        (st.resumes.map (fun r =>
          if decide (r.userId = u) then { r with is_primary := false } else r)) ∧
      st'.nextId = st.nextId := by
  unfold ResumeService.setPrimary at h
  cases hfind : st.resumes.find? (fun r => decide (r.id = rid ∧ r.userId = u)) with
  | none => simp only [hfind] at h; cases h
  | some resume =>
      simp only [hfind] at h
      obtain ⟨h1, h2⟩ := Prod.mk.injEq .. ▸ Except.ok.inj h
      exact ⟨resume, rfl, by rw [← h1], by rw [← h1]⟩

/-- Appending a fresh key keeps a key list `Nodup`. -/
theorem nodup_append_fresh {l : List Nat} {n : Nat}
    (hnd : l.Nodup) (h : ∀ x ∈ l, x < n) : (l ++ [n]).Nodup := by
  rw [List.nodup_append]
  refine ⟨hnd, List.nodup_singleton n, fun x hx hmem => ?_⟩
  rw [List.mem_singleton.mp hmem] at hx
  exact absurd (h _ hx) (lt_irrefl n)

/-- The demotion pass of `create` keeps each row's id. -/
theorem create_demote_id (u : Nat) (r : Resume) :
    (if decide (r.userId = u) && r.is_primary then
      { r with is_primary := false } else r).id = r.id := by
  by_cases hc : (decide (r.userId = u) && r.is_primary) = true <;> simp [hc]

/-- The demotion pass of `setPrimary` keeps each row's id. -/
theorem setPrimary_demote_id (u : Nat) (r : Resume) :
    (if decide (r.userId = u) then { r with is_primary := false } else r).id = r.id := by
  by_cases hc : r.userId = u <;> simp [hc]

/-- Well-formedness (unique row ids, ids below the fresh counter) is
preserved by every resume request. -/
theorem ResumeWF_step (st : ResumeState) (op : ResumeOp) (hwf : ResumeWF st) :
    ResumeWF (applyResumeOp st op) := by
  obtain ⟨hbound, hnd⟩ := hwf
  cases op with
  | createOp u t p =>
      cases heq : ResumeService.create u t p st with
      | error e => simp only [applyResumeOp, heq]; exact ⟨hbound, hnd⟩
      | ok pair =>
          obtain ⟨pst, pres⟩ := pair
          obtain ⟨hcnt, hnext, hcases⟩ := ResumeService.create_ok_inv heq
          simp only [applyResumeOp, heq]
          rcases hcases with ⟨hp, hres⟩ | ⟨hp, hres⟩
          · constructor
            · intro r hr
              rw [hres] at hr
              rcases List.mem_append.mp hr with hr | hr
              · obtain ⟨r0, hr0, hfr⟩ := List.mem_map.mp hr
                have hid : r.id = r0.id := by rw [← hfr]; exact create_demote_id u r0
                rw [hnext, hid]
                exact Nat.lt_succ_of_lt (hbound r0 hr0)
              · rw [List.mem_singleton.mp hr, hnext]
                exact Nat.lt_succ_self _
            · rw [hres, List.map_append, List.map_cons, List.map_nil,
                map_idOf_map _ _ _ (create_demote_id u)]
              exact nodup_append_fresh hnd (fun x hx => by
                obtain ⟨r0, hr0, hid⟩ := List.mem_map.mp hx
                exact hid ▸ hbound r0 hr0)
          · constructor
            · intro r hr
              rw [hres] at hr
              rcases List.mem_append.mp hr with hr | hr
              · rw [hnext]
                exact Nat.lt_succ_of_lt (hbound r hr)
              · rw [List.mem_singleton.mp hr, hnext]
                exact Nat.lt_succ_self _
            · rw [hres, List.map_append, List.map_cons, List.map_nil]
              exact nodup_append_fresh hnd (fun x hx => by
                obtain ⟨r0, hr0, hid⟩ := List.mem_map.mp hx
                exact hid ▸ hbound r0 hr0)
  | setPrimaryOp u rid =>
      cases heq : ResumeService.setPrimary u rid st with
      | error e => simp only [applyResumeOp, heq]; exact ⟨hbound, hnd⟩
      | ok pair =>
          obtain ⟨pst, pres⟩ := pair
          obtain ⟨resume, hfind, hres, hnext⟩ := ResumeService.setPrimary_ok_inv heq
          simp only [applyResumeOp, heq]
          have hids : pst.resumes.map (·.id) = st.resumes.map (·.id) := by
            rw [hres, map_idOf_updAt]
            exact map_idOf_map _ _ _ (setPrimary_demote_id u)
          constructor
          · intro r hr
            rw [hnext]
            exact idOf_lt_of_map_eq (·.id) hids hbound r hr
          · rw [hids]; exact hnd

/-- One resume request keeps the per-user primary count at most one. -/
theorem primary_le_one_step (st : ResumeState) (u : Nat) (op : ResumeOp)
    (hwf : ResumeWF st) (h1 : primaryCountOf u st ≤ 1) :
    primaryCountOf u (applyResumeOp st op) ≤ 1 := by
  obtain ⟨hbound, hnd⟩ := hwf
  cases op with
  | createOp u0 t p =>
      cases heq : ResumeService.create u0 t p st with
      | error e => simp only [applyResumeOp, heq]; exact h1
      | ok pair =>
          obtain ⟨pst, pres⟩ := pair
          obtain ⟨hcnt, hnext, hcases⟩ := ResumeService.create_ok_inv heq
          simp only [applyResumeOp, heq]
          unfold primaryCountOf at *
          rcases hcases with ⟨hp, hres⟩ | ⟨hp, hres⟩
          · by_cases huu : u = u0
            · have hzero : countP (fun r => decide (r.userId = u ∧ r.is_primary = true))
                  (st.resumes.map (fun r =>
                    if decide (r.userId = u0) && r.is_primary then
                      { r with is_primary := false }
                    else r)) = 0 := by
                apply countP_map_eq_zero
                intro r _
                by_cases hc : (decide (r.userId = u0) && r.is_primary) = true
                · simp [hc]
                · rw [if_neg hc]
                  rw [Bool.and_eq_true, decide_eq_true_iff] at hc
                  by_cases hru : r.userId = u
                  · have : ¬r.is_primary = true := fun hpr => hc ⟨huu ▸ hru, hpr⟩
                    simp [hru, this]
                  · simp [hru]
              rw [hres, countP_append, hzero]
              have := countP_singleton_le
                (fun r => decide (r.userId = u ∧ r.is_primary = true))
                (⟨st.nextId, u0, t, st.nextId, true⟩ : Resume)
              omega
            · have hsame : countP (fun r => decide (r.userId = u ∧ r.is_primary = true))
                  (st.resumes.map (fun r =>
                    if decide (r.userId = u0) && r.is_primary then
                      { r with is_primary := false }
                    else r)) =
                  countP (fun r => decide (r.userId = u ∧ r.is_primary = true)) st.resumes := by
                apply countP_map_eq
                intro r _
                by_cases hc : (decide (r.userId = u0) && r.is_primary) = true
                · have hcand := hc
                  rw [Bool.and_eq_true, decide_eq_true_iff] at hcand
                  rw [if_pos hc]
                  have hP1 : decide (({ r with is_primary := false } : Resume).userId = u ∧
                      ({ r with is_primary := false } : Resume).is_primary = true) = false :=
                    decide_eq_false (fun hP => Bool.false_ne_true hP.2)
                  have hP2 : decide (r.userId = u ∧ r.is_primary = true) = false :=
                    decide_eq_false (fun hP => huu (by rw [← hP.1]; exact hcand.1))
                  rw [hP1, hP2]
                · rw [if_neg hc]
              rw [hres, countP_append, hsame,
                countP_singleton_of_neg
                  (fun r => decide (r.userId = u ∧ r.is_primary = true))
                  (⟨st.nextId, u0, t, st.nextId, true⟩ : Resume)
                  (decide_eq_false (fun hP => huu hP.1.symm))]
              omega
          · rw [hres, countP_append,
              countP_singleton_of_neg
                (fun r => decide (r.userId = u ∧ r.is_primary = true))
                (⟨st.nextId, u0, t, st.nextId, false⟩ : Resume)
                (decide_eq_false (fun hP => Bool.false_ne_true hP.2))]
            omega
  | setPrimaryOp u0 rid =>
      cases heq : ResumeService.setPrimary u0 rid st with
      | error e => simp only [applyResumeOp, heq]; exact h1
      | ok pair =>
          obtain ⟨pst, pres⟩ := pair
          obtain ⟨resume, hfind, hres, hnext⟩ := ResumeService.setPrimary_ok_inv heq
          obtain ⟨hrmem, hrpred⟩ := find?_ok hfind
          have hru0 : resume.userId = u0 := (of_decide_eq_true hrpred).2
          simp only [applyResumeOp, heq]
          unfold primaryCountOf at *
          have hdemids : (st.resumes.map (fun r =>
              if decide (r.userId = u0) then { r with is_primary := false } else r)).map (·.id) =
              st.resumes.map (·.id) :=
            map_idOf_map _ _ _ (setPrimary_demote_id u0)
          by_cases huu : u = u0
          · have hzero : countP (fun r => decide (r.userId = u ∧ r.is_primary = true))
                (st.resumes.map (fun r =>
                  if decide (r.userId = u0) then { r with is_primary := false } else r)) = 0 := by
              apply countP_map_eq_zero
              intro r _
              by_cases hc : r.userId = u0
              · simp [hc]
              · have : ¬r.userId = u := huu ▸ hc
                simp [hc, this]
            have hle := countP_updAt_le_countP_add_one (·.id)
              ({ resume with is_primary := true })
              (fun r => decide (r.userId = u ∧ r.is_primary = true))
              (l := st.resumes.map (fun r =>
                if decide (r.userId = u0) then { r with is_primary := false } else r))
              (by rw [hdemids]; exact hnd)
            rw [hres]
            omega
          · have hsame : countP (fun r => decide (r.userId = u ∧ r.is_primary = true))
                (st.resumes.map (fun r =>
                  if decide (r.userId = u0) then { r with is_primary := false } else r)) =
                countP (fun r => decide (r.userId = u ∧ r.is_primary = true)) st.resumes := by
              apply countP_map_eq
              intro r _
              by_cases hc : r.userId = u0
              · rw [if_pos (decide_eq_true hc)]
                have hP1 : decide (({ r with is_primary := false } : Resume).userId = u ∧
                    ({ r with is_primary := false } : Resume).is_primary = true) = false :=
                  decide_eq_false (fun hP => Bool.false_ne_true hP.2)
                have hP2 : decide (r.userId = u ∧ r.is_primary = true) = false :=
                  decide_eq_false (fun hP => huu (by rw [← hP.1]; exact hc))
                rw [hP1, hP2]
              · rw [if_neg (by simpa using hc)]
            rw [hres]
            have hPearly : ¬(({ resume with is_primary := true } : Resume).userId = u ∧
                ({ resume with is_primary := true } : Resume).is_primary = true) :=
              fun hP => huu (by
                have := hP.1
                simp only at this
                rw [← this, hru0])
            have heqc := countP_updAt_eq (·.id) ({ resume with is_primary := true })
              (fun r => decide (r.userId = u ∧ r.is_primary = true))
              (l := st.resumes.map (fun r =>
                if decide (r.userId = u0) then { r with is_primary := false } else r)) ?_
            · rw [heqc, hsame]; exact h1
            · intro r hr hid
              obtain ⟨r0, hr0, hfr⟩ := List.mem_map.mp hr
              have hid0 : r0.id = resume.id := by
                have hrid : r.id = r0.id := by rw [← hfr]; exact setPrimary_demote_id u0 r0
                rw [← hrid]
                exact hid
              have hr0res : r0 = resume := eq_of_idOf_eq (·.id) hnd hrmem r0 hr0 hid0
              have hrform : r = { resume with is_primary := false } := by
                rw [← hfr, hr0res, if_pos (decide_eq_true hru0)]
              have hPr : ¬(r.userId = u ∧ r.is_primary = true) := by
                rw [hrform]
                intro hP
                exact huu (by rw [← hP.1]; exact hru0)
              exact (decide_eq_false hPearly).trans (decide_eq_false hPr).symm

/-- One resume request keeps any user's resume count at most ten. -/
theorem resume_count_step (st : ResumeState) (u : Nat) (op : ResumeOp)
    (hwf : ResumeWF st) (h10 : resumeCountOf u st ≤ 10) :
    resumeCountOf u (applyResumeOp st op) ≤ 10 := by
  obtain ⟨hbound, hnd⟩ := hwf
  cases op with
  | createOp u0 t p =>
      cases heq : ResumeService.create u0 t p st with
      | error e => simp only [applyResumeOp, heq]; exact h10
      | ok pair =>
          obtain ⟨pst, pres⟩ := pair
          obtain ⟨hcnt, hnext, hcases⟩ := ResumeService.create_ok_inv heq
          simp only [applyResumeOp, heq]
          unfold resumeCountOf at *
          rcases hcases with ⟨hp, hres⟩ | ⟨hp, hres⟩
          · have hsame : countP (fun r => decide (r.userId = u))
                (st.resumes.map (fun r =>
                  if decide (r.userId = u0) && r.is_primary then
                    { r with is_primary := false }
                  else r)) =
                countP (fun r => decide (r.userId = u)) st.resumes := by
              apply countP_map_eq
              intro r _
              by_cases hc : (decide (r.userId = u0) && r.is_primary) = true
              · rw [if_pos hc]
              · rw [if_neg hc]
            rw [hres, countP_append, hsame]
            by_cases huu : u = u0
            · subst huu
              have hone : countP (fun r => decide (r.userId = u))
                  [(⟨st.nextId, u, t, st.nextId, true⟩ : Resume)] ≤ 1 :=
                countP_singleton_le _ _
              unfold MAX_RESUMES_PER_USER at hcnt
              omega
            · rw [countP_singleton_of_neg (fun r => decide (r.userId = u))
                (⟨st.nextId, u0, t, st.nextId, true⟩ : Resume)
                (decide_eq_false (fun hP => huu hP.symm))]
              omega
          · rw [hres, countP_append]
            by_cases huu : u = u0
            · subst huu
              have hone : countP (fun r => decide (r.userId = u))
                  [(⟨st.nextId, u, t, st.nextId, false⟩ : Resume)] ≤ 1 :=
                countP_singleton_le _ _
              unfold MAX_RESUMES_PER_USER at hcnt
              omega
            · rw [countP_singleton_of_neg (fun r => decide (r.userId = u))
                (⟨st.nextId, u0, t, st.nextId, false⟩ : Resume)
                (decide_eq_false (fun hP => huu hP.symm))]
              omega
  | setPrimaryOp u0 rid =>
      cases heq : ResumeService.setPrimary u0 rid st with
      | error e => simp only [applyResumeOp, heq]; exact h10
      | ok pair =>
          obtain ⟨pst, pres⟩ := pair
          obtain ⟨resume, hfind, hres, hnext⟩ := ResumeService.setPrimary_ok_inv heq
          obtain ⟨hrmem, hrpred⟩ := find?_ok hfind
          have hru0 : resume.userId = u0 := (of_decide_eq_true hrpred).2
          simp only [applyResumeOp, heq]
          unfold resumeCountOf at *
          have hsame : countP (fun r => decide (r.userId = u))
              (st.resumes.map (fun r =>
                if decide (r.userId = u0) then { r with is_primary := false } else r)) =
              countP (fun r => decide (r.userId = u)) st.resumes := by
            apply countP_map_eq
            intro r _
            by_cases hc : r.userId = u0
            · rw [if_pos (decide_eq_true hc)]
            · rw [if_neg (by simpa using hc)]
          have heqc := countP_updAt_eq (·.id) ({ resume with is_primary := true })
            (fun r => decide (r.userId = u))
            (l := st.resumes.map (fun r =>
              if decide (r.userId = u0) then { r with is_primary := false } else r)) ?_
          · rw [hres, heqc, hsame]; exact h10
          · intro r hr hid
            obtain ⟨r0, hr0, hfr⟩ := List.mem_map.mp hr
            have hid0 : r0.id = resume.id := by
              have hrid : r.id = r0.id := by rw [← hfr]; exact setPrimary_demote_id u0 r0
              rw [← hrid]
              exact hid
            have hr0res : r0 = resume := eq_of_idOf_eq (·.id) hnd hrmem r0 hr0 hid0
            have hrform : r = { resume with is_primary := false } := by
              rw [← hfr, hr0res, if_pos (decide_eq_true hru0)]
            rw [hrform]

/-- The primary-exclusivity invariant holds along any sequence of requests. -/
theorem resume_primary_many (ops : List ResumeOp) :
    ∀ st : ResumeState, ∀ u : Nat, ResumeWF st → primaryCountOf u st ≤ 1 →
      ResumeWF (applyResumeOps st ops) ∧
      primaryCountOf u (applyResumeOps st ops) ≤ 1 := by
  induction ops with
  | nil => exact fun st u hwf h1 => ⟨hwf, h1⟩
  | cons op rest ih =>
      intro st u hwf h1
      exact ih (applyResumeOp st op) u (ResumeWF_step st op hwf)
        (primary_le_one_step st u op hwf h1)

/-- The ten-resume cap holds along any sequence of requests. -/
theorem resume_cap_many (ops : List ResumeOp) :
    ∀ st : ResumeState, ∀ u : Nat, ResumeWF st → resumeCountOf u st ≤ 10 →
      resumeCountOf u (applyResumeOps st ops) ≤ 10 := by
  induction ops with
  | nil => exact fun st u hwf h10 => h10
  | cons op rest ih =>
      intro st u hwf h10
      exact ih (applyResumeOp st op) u (ResumeWF_step st op hwf)
        (resume_count_step st u op hwf h10)

/-- C5.  For every actor `u`, starting from a well-formed store in which `u`
has at most one primary resume (in particular from an empty store), after any
sequence of resume-create and set-primary requests executed sequentially the
number of `u`'s resumes with `is_primary = true` is exactly 0 or exactly 1. -/
theorem claim_C5_primary_resume_exclusive (st : ResumeState) (u : Nat)
    (ops : List ResumeOp) (hwf : ResumeWF st) (h1 : primaryCountOf u st ≤ 1) :
    primaryCountOf u (applyResumeOps st ops) = 0 ∨
    primaryCountOf u (applyResumeOps st ops) = 1 := by
  have h := (resume_primary_many ops st u hwf h1).2
  omega

/-- Witness for C5: the empty store, then create a non-primary resume, create
a primary one, and re-point the primary at the first. -/
theorem claim_C5_witness :
    (ResumeWF ⟨[], [], 0⟩ ∧ primaryCountOf 5 ⟨[], [], 0⟩ ≤ 1) ∧
    (primaryCountOf 5 (applyResumeOps ⟨[], [], 0⟩
        [.createOp 5 "a" false, .createOp 5 "b" true, .setPrimaryOp 5 0]) = 0 ∨
      primaryCountOf 5 (applyResumeOps ⟨[], [], 0⟩
        [.createOp 5 "a" false, .createOp 5 "b" true, .setPrimaryOp 5 0]) = 1) :=
  ⟨⟨⟨by simp, by simp⟩, by decide⟩,
    claim_C5_primary_resume_exclusive ⟨[], [], 0⟩ 5
      [.createOp 5 "a" false, .createOp 5 "b" true, .setPrimaryOp 5 0]
      ⟨by simp, by simp⟩ (by decide)⟩

/-- C10.  Every actor owns at most ten resumes at all times: the cap is
preserved by any sequence of resume requests, and for an actor already at ten
resumes `ResumeService.create` throws
`BadRequestException "Maximum resume limit reached (10)"` before uploading or
inserting anything — the failed request leaves the whole state, storage bucket
included, unchanged. -/
theorem claim_C10_resume_limit (st : ResumeState) (u : Nat) (t : String)
    (p : Bool) (ops : List ResumeOp) (hwf : ResumeWF st)
    (h10 : resumeCountOf u st ≤ 10) :
    resumeCountOf u (applyResumeOps st ops) ≤ 10 ∧
    (resumeCountOf u st = 10 →
      ResumeService.create u t p st =
        .error (.badRequest "Maximum resume limit reached (10)") ∧
      applyResumeOp st (.createOp u t p) = st) := by
  refine ⟨resume_cap_many ops st u hwf h10, fun hat => ?_⟩
  have herr : ResumeService.create u t p st =
      .error (.badRequest "Maximum resume limit reached (10)") := by
    unfold ResumeService.create
    rw [if_pos (by unfold resumeCountOf at hat; unfold MAX_RESUMES_PER_USER; omega)]
  exact ⟨herr, by simp [applyResumeOp, herr]⟩

/-- Concrete store for the C10 witness: user 5 already owns ten resumes. -/
def c10Store : ResumeState :=
  { resumes := (List.range 10).map (fun i => ⟨i, 5, "cv", i, false⟩),
    storage := List.range 10, nextId := 10 }

/-- Witness for C10 at `c10Store`: the cap holds after further requests, and
one more create for user 5 is rejected without touching the state. -/
theorem claim_C10_witness :
    (ResumeWF c10Store ∧ resumeCountOf 5 c10Store ≤ 10) ∧
    (resumeCountOf 5 (applyResumeOps c10Store
        [.createOp 5 "x" true, .setPrimaryOp 5 3]) ≤ 10 ∧
      (resumeCountOf 5 c10Store = 10 →
        ResumeService.create 5 "x" true c10Store =
          .error (.badRequest "Maximum resume limit reached (10)") ∧
        applyResumeOp c10Store (.createOp 5 "x" true) = c10Store)) :=
  ⟨⟨⟨by decide, by decide⟩, by decide⟩,
    claim_C10_resume_limit c10Store 5 "x" true
      [.createOp 5 "x" true, .setPrimaryOp 5 3] ⟨by decide, by decide⟩ (by decide)⟩

/-! ## Applications (src/db/entities/job-application.entity.ts,
application.service.ts) -/

/-- Row of the `job_applications` table; `companyId` is the denormalized
tenant id copied from the job at creation.  The schema puts a unique index on
(job, user) (`@Index(['job', 'user'], { unique: true })`). -/
structure JobApplication where
  id : Nat
  jobId : Nat
  companyId : Nat
  userId : Nat
  resumeId : Option Nat
  answers_json : Option String
  video_url : Option String
  status : ApplicationStatus
  status_changed_by : Option Nat
deriving DecidableEq, Repr

/-- Row of the `application_comments` table. -/
structure ApplicationComment where
  id : Nat
  applicationId : Nat
  companyId : Nat
  userId : Nat
  comment : String
  visible_to_candidate : Bool
deriving DecidableEq, Repr

/-- JS `value || undefined`: an absent or empty string becomes undefined. -/
def orUndefined (s : Option String) : Option String :=
  match s with
  | some str => if str = "" then none else some str
  | none => none

/-- `job.application_deadline && new Date() > new Date(job.application_deadline)`. -/
def deadlineExceeded (j : JobListing) (now : Int) : Bool :=
  match j.application_deadline with
  | some d => decide (d < now)
  | none => false

/-- The tables `ApplicationService.apply` touches, plus the fresh-id counter. -/
structure AppState where
  jobs : List JobListing
  resumes : List Resume
  apps : List JobApplication
  nextId : Nat
deriving DecidableEq, Repr

/-- `ApplicationService.apply` (application.service.ts, lines 97-177), the
body running inside one transaction: find the job (ACTIVE, not deleted) or
throw `NotFoundException`; reject a passed deadline with
`BadRequestException`; find the resume owned by the caller or throw
`ForbiddenException`; reject an existing (job, user) application with
`BadRequestException`; otherwise insert the row with status APPLIED and the
company id denormalized from the job. -/
def ApplicationService.apply (userId job_id resume_id : Nat)
    (answers_json video_url : Option String) (now : Int) (st : AppState) :
    Except Err (AppState × JobApplication) :=
  match st.jobs.find? (fun jb => decide (jb.id = job_id ∧
      jb.status = JobStatus.ACTIVE ∧ jb.deleted_at = none)) with
  | none => .error (.notFound "Job not found or not accepting applications")
  | some job =>
    if deadlineExceeded job now then
      .error (.badRequest "Application deadline has passed")
    else
      match st.resumes.find? (fun rr => decide (rr.id = resume_id ∧
          rr.userId = userId)) with
      | none => .error (.forbidden "Resume not found or does not belong to you")
      | some _ =>
        match st.apps.find? (fun ap => decide (ap.jobId = job_id ∧
            ap.userId = userId)) with
        | some _ => .error (.badRequest "You have already applied to this job")
        | none =>
          let application : JobApplication :=
            ⟨st.nextId, job_id, job.companyId, userId, some resume_id,
              orUndefined answers_json, orUndefined video_url,
              ApplicationStatus.APPLIED, none⟩
          .ok ({ st with
                  apps := st.apps ++ [application],
                  nextId := st.nextId + 1 }, application)

/-- `repo.save(a)` on the applications table. -/
def saveApplication (e : JobApplication) (l : List JobApplication) :
    List JobApplication :=
  updAt (·.id) e l

/-- `ApplicationService.withdraw` (application.service.ts, lines 191-219):
find the caller's application by id (absent or foreign raises
`NotFoundException`); refuse when the status is ACCEPTED or WITHDRAWN
(`BadRequestException`); otherwise save status WITHDRAWN. -/
def ApplicationService.withdraw (userId applicationId : Nat)
    (apps : List JobApplication) : Except Err (List JobApplication) :=
  match apps.find? (fun a => decide (a.id = applicationId ∧
      a.userId = userId)) with
  | none => .error (.notFound "Application not found")
  | some application =>
    if application.status = ApplicationStatus.ACCEPTED then
      .error (.badRequest "Cannot withdraw an already accepted application")
    else if application.status = ApplicationStatus.WITHDRAWN then
      .error (.badRequest "Application is already withdrawn")
    else
      .ok (saveApplication
        { application with status := ApplicationStatus.WITHDRAWN } apps)

/-- `ApplicationService.updateStatus` (application.service.ts, lines 343-376):
find the application by id scoped to the company (absent or foreign raises
`NotFoundException`); refuse when the status is WITHDRAWN
(`BadRequestException`); otherwise save the new status and who changed it. -/
def ApplicationService.updateStatus (companyId applicationId : Nat)
    (status : ApplicationStatus) (changedBy : Nat)
    (apps : List JobApplication) : Except Err (List JobApplication) :=
  match apps.find? (fun a => decide (a.id = applicationId ∧
      a.companyId = companyId)) with
  | none => .error (.notFound "Application not found")
  | some application =>
    if application.status = ApplicationStatus.WITHDRAWN then
      .error (.badRequest "Cannot update a withdrawn application")
    else
      .ok (saveApplication
        { application with
            status := status,
            status_changed_by := some changedBy } apps)

/-- Comment shape returned to the candidate by `getCandidateApplications`. -/
structure CandidateCommentView where
  id : Nat
  comment : String
  visible_to_candidate : Bool
deriving DecidableEq, Repr

/-- Application shape returned to the candidate (job-join fields carry no
information relevant to any claim and are omitted). -/
structure CandidateAppView where
  id : Nat
  status : ApplicationStatus
  comments : List CandidateCommentView
deriving DecidableEq, Repr

/-- `ApplicationService.getCandidateApplications` (application.service.ts,
lines 236-287): page through the caller's applications with their comments
relation loaded, then map each comment of each application into the response
— the code maps ALL loaded comments (its own source comment "Only include
comments visible to candidate" notwithstanding, no filter on
`visible_to_candidate` is applied). -/
def ApplicationService.getCandidateApplications (userId page limit : Nat)
    (apps : List JobApplication) (comments : List ApplicationComment) :
    List CandidateAppView :=
  (paginateList page limit (apps.filter (fun a => decide (a.userId = userId)))).map
    (fun a =>
      { id := a.id, status := a.status,
        comments := (comments.filter
            (fun c => decide (c.applicationId = a.id))).map
          (fun c => { id := c.id, comment := c.comment,
                      visible_to_candidate := c.visible_to_candidate }) })

/-! ## Question banks (question-bank.service.ts) and job creation snapshot -/

/-- Row of the `question_banks` table (`questions_json` modelled as a list of
question texts). -/
structure QuestionBank where
  id : Nat
  companyId : Nat
  name : String
  questions_json : List String
deriving DecidableEq, Repr

/-- The fields of `CreateJobDto` that job creation reads in this model. -/
structure CreateJobDto where
  title : String
  status : JobStatus
  visibility : JobVisibility
  application_deadline : Option Int
  question_bank_id : Option Nat
deriving DecidableEq, Repr

/-- The fields of `UpdateQuestionBankDto` (all optional; `Object.assign`
merge). -/
structure UpdateQuestionBankDto where
  name : Option String
  questions_json : Option (List String)
deriving DecidableEq, Repr

/-- The tenant-side tables `JobService.create` and the question-bank service
touch, plus the fresh-id counter. -/
structure TenantState where
  jobs : List JobListing
  qbanks : List QuestionBank
  nextId : Nat
deriving DecidableEq, Repr

/-- `JobService.create` (job.service.ts, lines 85-140), inside one
transaction: when `question_bank_id` is given, find the bank scoped to the
company (absent raises `NotFoundException "Question bank not found"`) and
snapshot its current `questions_json` into the new job's
`screening_questions_json`; then insert the job row.  Returns the new job's
id. -/
def JobService.create (companyId userId : Nat) (dto : CreateJobDto)
    (st : TenantState) : Except Err (TenantState × Nat) :=
  match dto.question_bank_id with
  | some qid =>
    match st.qbanks.find? (fun qb => decide (qb.id = qid ∧
        qb.companyId = companyId)) with
    | none => .error (.notFound "Question bank not found")
    | some qb =>
      let job : JobListing :=
        ⟨st.nextId, companyId, dto.title, dto.status, dto.visibility,
          dto.application_deadline, some qb.questions_json, none⟩
      .ok ({ st with jobs := st.jobs ++ [job], nextId := st.nextId + 1 },
        st.nextId)
  | none =>
    let job : JobListing :=
      ⟨st.nextId, companyId, dto.title, dto.status, dto.visibility,
        dto.application_deadline, none, none⟩
    .ok ({ st with jobs := st.jobs ++ [job], nextId := st.nextId + 1 },
      st.nextId)

/-- `QuestionBankService.update` (question-bank.service.ts, lines 127-140):
find the bank scoped to the company (absent raises `NotFoundException`),
`Object.assign` the provided fields over it, and save it.  Jobs are never
touched. -/
def QuestionBankService.update (companyId qbId : Nat)
    (dto : UpdateQuestionBankDto) (st : TenantState) :
    Except Err TenantState :=
  match st.qbanks.find? (fun qb => decide (qb.id = qbId ∧
      qb.companyId = companyId)) with
  | none => .error (.notFound "Question bank not found")
  | some qb =>
    let merged : QuestionBank :=
      { qb with
          name := dto.name.getD qb.name,
          questions_json := dto.questions_json.getD qb.questions_json }
    .ok { st with qbanks := updAt (·.id) merged st.qbanks }

example :
    ApplicationService.withdraw 1 1
      [⟨1, 2, 3, 1, none, none, none, ApplicationStatus.ACCEPTED, none⟩] =
    .error (.badRequest "Cannot withdraw an already accepted application") := rfl

/-- The candidate-listing input from the repository's own unit test
(application.service.spec.ts, `getCandidateApplications`): one application of
user 1 carrying a candidate-visible comment and an internal one. -/
def c4App : JobApplication :=
  ⟨1, 2, 3, 1, none, none, none, ApplicationStatus.APPLIED, none⟩

/-- The two comments of the test: "Good" is visible to the candidate,
"Internal" is not. -/
def c4Comments : List ApplicationComment :=
  [⟨10, 1, 3, 4, "Good", true⟩, ⟨11, 1, 3, 4, "Internal", false⟩]

/-- C4 fails on the code: `getCandidateApplications` returns every loaded
comment, including those with `visible_to_candidate = false`.  At the input of
the repository's own unit test (which asserts that only the visible comment is
returned) the candidate response contains both comments, the internal one with
`visible_to_candidate = false` included — so the code contradicts both its own
source comment and its own test. -/
theorem claim_C4_invisible_comment_leaked :
    ApplicationService.getCandidateApplications 1 1 10 [c4App] c4Comments =
      [{ id := 1, status := ApplicationStatus.APPLIED,
         comments := [⟨10, "Good", true⟩, ⟨11, "Internal", false⟩] }] ∧
    (ApplicationService.getCandidateApplications 1 1 10 [c4App]
        c4Comments).map (fun v => v.comments.map (·.visible_to_candidate)) =
      [[true, false]] :=
  ⟨rfl, rfl⟩

/-- `find?` skips a prefix in which nothing matches. -/
theorem find?_append_none {α : Type} {p : α → Bool} {l₁ : List α} (l₂ : List α)
    (h : l₁.find? p = none) : (l₁ ++ l₂).find? p = l₂.find? p := by
  induction l₁ with
  | nil => rfl
  | cons x t ih =>
      by_cases hx : p x
      · rw [List.find?_cons_of_pos _ hx] at h; cases h
      · rw [List.find?_cons_of_neg _ hx] at h
        rw [List.cons_append, List.find?_cons_of_neg _ hx]
        exact ih h

/-- No row of `l` shares the (job, user) pair `(j, u)`. -/
def appPairFree (j u : Nat) (l : List JobApplication) : Bool :=
  l.all (fun a => !(decide (a.jobId = j ∧ a.userId = u)))

/-- The unique index on (job, user): no two rows of the applications table
share a (job, user) pair. -/
def pairwiseUniqueApps : List JobApplication → Bool
  | [] => true
  | a :: t => appPairFree a.jobId a.userId t && pairwiseUniqueApps t

/-- Appending a row whose (job, user) pair is absent keeps the table unique. -/
theorem pairwiseUniqueApps_append_one {l : List JobApplication}
    (x : JobApplication) (hpw : pairwiseUniqueApps l = true)
    (hfree : ∀ a ∈ l, ¬(a.jobId = x.jobId ∧ a.userId = x.userId)) :
    pairwiseUniqueApps (l ++ [x]) = true := by
  induction l with
  | nil => simp [pairwiseUniqueApps, appPairFree]
  | cons y t ih =>
      rw [List.cons_append]
      simp only [pairwiseUniqueApps, Bool.and_eq_true] at hpw ⊢
      obtain ⟨hfy, hpt⟩ := hpw
      refine ⟨?_, ih hpt (fun a ha => hfree a (List.mem_cons_of_mem y ha))⟩
      unfold appPairFree at hfy ⊢
      rw [List.all_append, Bool.and_eq_true]
      refine ⟨hfy, ?_⟩
      simp only [List.all_cons, List.all_nil, Bool.and_true, Bool.not_eq_true']
      apply decide_eq_false
      intro hP
      exact hfree y (List.mem_cons_self y t) ⟨hP.1.symm, hP.2.symm⟩

/-- Inversion of a successful `ApplicationService.apply`: the job was found
ACTIVE and not deleted, the deadline had not passed, the caller owned the
resume, no (job, user) application existed, and the result appends the new
APPLIED row. -/
theorem ApplicationService.apply_ok_inv {userId job_id resume_id : Nat}
    {aj vu : Option String} {now : Int} {st st' : AppState} {a : JobApplication}
    (h : ApplicationService.apply userId job_id resume_id aj vu now st =
      .ok (st', a)) :
    ∃ job, st.jobs.find? (fun jb => decide (jb.id = job_id ∧
        jb.status = JobStatus.ACTIVE ∧ jb.deleted_at = none)) = some job ∧
      deadlineExceeded job now = false ∧
      (∃ res, st.resumes.find? (fun rr => decide (rr.id = resume_id ∧
          rr.userId = userId)) = some res) ∧
      st.apps.find? (fun ap => decide (ap.jobId = job_id ∧
          ap.userId = userId)) = none ∧
      a = ⟨st.nextId, job_id, job.companyId, userId, some resume_id,
        orUndefined aj, orUndefined vu, ApplicationStatus.APPLIED, none⟩ ∧
      st' = { st with apps := st.apps ++ [a], nextId := st.nextId + 1 } := by
  unfold ApplicationService.apply at h
  cases hjob : st.jobs.find? (fun jb => decide (jb.id = job_id ∧
      jb.status = JobStatus.ACTIVE ∧ jb.deleted_at = none)) with
  | none => simp only [hjob] at h; cases h
  | some job =>
      simp only [hjob] at h
      by_cases hdl : deadlineExceeded job now = true
      · rw [if_pos hdl] at h; cases h
      · rw [if_neg hdl] at h
        cases hres : st.resumes.find? (fun rr => decide (rr.id = resume_id ∧
            rr.userId = userId)) with
        | none => simp only [hres] at h; cases h
        | some res =>
            simp only [hres] at h
            cases happ : st.apps.find? (fun ap => decide (ap.jobId = job_id ∧
                ap.userId = userId)) with
            | some dup => simp only [happ] at h; cases h
            | none =>
                simp only [happ] at h
                obtain ⟨h1, h2⟩ := Prod.mk.injEq .. ▸ Except.ok.inj h
                refine ⟨job, rfl, by simpa using hdl, ⟨res, rfl⟩, rfl,
                  h2.symm, ?_⟩
                rw [← h1, h2]

/-- When the job is live, the deadline has not passed, the resume is owned by
the caller and a (job, user) row already exists, `apply` throws the duplicate
error. -/
theorem ApplicationService.apply_duplicate {userId job_id resume_id : Nat}
    {aj vu : Option String} {now : Int} {st : AppState} {job : JobListing}
    {res : Resume} {dup : JobApplication}
    (hjob : st.jobs.find? (fun jb => decide (jb.id = job_id ∧
      jb.status = JobStatus.ACTIVE ∧ jb.deleted_at = none)) = some job)
    (hdl : deadlineExceeded job now = false)
    (hres : st.resumes.find? (fun rr => decide (rr.id = resume_id ∧
      rr.userId = userId)) = some res)
    (hdup : st.apps.find? (fun ap => decide (ap.jobId = job_id ∧
      ap.userId = userId)) = some dup) :
    ApplicationService.apply userId job_id resume_id aj vu now st =
      .error (.badRequest "You have already applied to this job") := by
  unfold ApplicationService.apply
  simp only [hjob, hres, hdup, hdl]
  rw [if_neg Bool.false_ne_true]

/-- C6.  Sequentially, at most one application row exists per (job, actor):
a successful `apply` preserves the uniqueness of (job, user) pairs in the
table, returns the created application with status APPLIED, and an immediate
second `apply` for the same pair fails with the duplicate error (the spec's
Conflict category, thrown by the code as `BadRequestException "You have
already applied to this job"`) without returning any state, so no second row
is created.  (Under true concurrency the pre-check is racy; the unique index
on (job, user) is the storage-level backstop — see the schema note on
`JobApplication`.) -/
theorem claim_C6_duplicate_application (st st' : AppState) (u j r : Nat)
    (aj vu : Option String) (now : Int) (a : JobApplication)
    (hpw : pairwiseUniqueApps st.apps = true)
    (hok : ApplicationService.apply u j r aj vu now st = .ok (st', a)) :
    pairwiseUniqueApps st'.apps = true ∧
    a.status = ApplicationStatus.APPLIED ∧
    ApplicationService.apply u j r aj vu now st' =
      .error (.badRequest "You have already applied to this job") := by
  obtain ⟨job, hjob, hdl, ⟨res, hres⟩, happ, ha, hst⟩ :=
    ApplicationService.apply_ok_inv hok
  subst hst
  subst ha
  refine ⟨?_, rfl, ?_⟩
  · apply pairwiseUniqueApps_append_one _ hpw
    intro x hx hP
    exact List.find?_eq_none.mp happ x hx (decide_eq_true ⟨hP.1, hP.2⟩)
  · exact ApplicationService.apply_duplicate hjob hdl hres
      (by rw [show ({ st with
            apps := st.apps ++ [⟨st.nextId, j, job.companyId, u, some r,
              orUndefined aj, orUndefined vu, ApplicationStatus.APPLIED, none⟩],
            nextId := st.nextId + 1 } : AppState).apps = st.apps ++
              [⟨st.nextId, j, job.companyId, u, some r, orUndefined aj,
                orUndefined vu, ApplicationStatus.APPLIED, none⟩] from rfl,
          find?_append_none _ happ]
          exact List.find?_cons_of_pos _ (decide_eq_true ⟨rfl, rfl⟩))

/-- Concrete tables for the C6 witness: one ACTIVE job of company 3, one
resume owned by user 1, no applications yet. -/
def c6Store : AppState :=
  { jobs := [⟨2, 3, "dev", JobStatus.ACTIVE, JobVisibility.PUBLIC, none, none, none⟩],
    resumes := [⟨4, 1, "cv", 0, false⟩],
    apps := [], nextId := 0 }

/-- Witness for C6 at `c6Store`: user 1 applies to job 2 twice. -/
theorem claim_C6_witness :
    (pairwiseUniqueApps c6Store.apps = true ∧
      ApplicationService.apply 1 2 4 none none 0 c6Store =
        .ok ({ c6Store with
                apps := [⟨0, 2, 3, 1, some 4, none, none,
                  ApplicationStatus.APPLIED, none⟩],
                nextId := 1 },
          ⟨0, 2, 3, 1, some 4, none, none, ApplicationStatus.APPLIED, none⟩)) ∧
    (pairwiseUniqueApps ({ c6Store with
        apps := [⟨0, 2, 3, 1, some 4, none, none,
          ApplicationStatus.APPLIED, none⟩],
        nextId := 1 } : AppState).apps = true ∧
      (⟨0, 2, 3, 1, some 4, none, none, ApplicationStatus.APPLIED, none⟩ :
        JobApplication).status = ApplicationStatus.APPLIED ∧
      ApplicationService.apply 1 2 4 none none 0 ({ c6Store with
        apps := [⟨0, 2, 3, 1, some 4, none, none,
          ApplicationStatus.APPLIED, none⟩],
        nextId := 1 }) =
        .error (.badRequest "You have already applied to this job")) :=
  ⟨⟨by decide, rfl⟩,
    claim_C6_duplicate_application c6Store _ 1 2 4 none none 0 _
      (by decide) rfl⟩

/-- C7.  The application status operations implement exactly the claimed
transition relation.  Given the application the candidate-scoped lookup
returns, `withdraw` is fully characterized: it fails (with the code's
realization of the InvalidTransition category,
`BadRequestException`) exactly when the current status is ACCEPTED or
WITHDRAWN — returning no state, so the status is unchanged — and otherwise
saves status WITHDRAWN.  Given the application the company-scoped lookup
returns, `updateStatus` fails exactly when the current status is WITHDRAWN
(so ACCEPTED → REJECTED is allowed) and otherwise saves the requested
status. -/
theorem claim_C7_application_transitions (apps : List JobApplication)
    (u aid c cb : Nat) (ns : ApplicationStatus) (a b : JobApplication)
    (hw : apps.find? (fun x => decide (x.id = aid ∧ x.userId = u)) = some a)
    (hc : apps.find? (fun x => decide (x.id = aid ∧ x.companyId = c)) = some b) :
    (ApplicationService.withdraw u aid apps =
      if a.status = ApplicationStatus.ACCEPTED then
        .error (.badRequest "Cannot withdraw an already accepted application")
      else if a.status = ApplicationStatus.WITHDRAWN then
        .error (.badRequest "Application is already withdrawn")
      else
        .ok (saveApplication
          { a with status := ApplicationStatus.WITHDRAWN } apps)) ∧
    (ApplicationService.updateStatus c aid ns cb apps =
      if b.status = ApplicationStatus.WITHDRAWN then
        .error (.badRequest "Cannot update a withdrawn application")
      else
        .ok (saveApplication
          { b with status := ns, status_changed_by := some cb } apps)) := by
  constructor
  · unfold ApplicationService.withdraw
    simp only [hw]
  · unfold ApplicationService.updateStatus
    simp only [hc]

/-- Scenario C table for the C7 witness: one ACCEPTED application of user 1
at company 3. -/
def c7Apps : List JobApplication :=
  [⟨1, 2, 3, 1, none, none, none, ApplicationStatus.ACCEPTED, none⟩]

/-- Witness for C7 at `c7Apps`: the candidate's withdraw is rejected while
the company may still move ACCEPTED to REJECTED. -/
theorem claim_C7_witness :
    (c7Apps.find? (fun x => decide (x.id = 1 ∧ x.userId = 1)) =
        some ⟨1, 2, 3, 1, none, none, none, ApplicationStatus.ACCEPTED, none⟩ ∧
      c7Apps.find? (fun x => decide (x.id = 1 ∧ x.companyId = 3)) =
        some ⟨1, 2, 3, 1, none, none, none, ApplicationStatus.ACCEPTED, none⟩) ∧
    ((ApplicationService.withdraw 1 1 c7Apps =
      if (⟨1, 2, 3, 1, none, none, none, ApplicationStatus.ACCEPTED, none⟩ :
          JobApplication).status = ApplicationStatus.ACCEPTED then
        .error (.badRequest "Cannot withdraw an already accepted application")
      else if (⟨1, 2, 3, 1, none, none, none, ApplicationStatus.ACCEPTED, none⟩ :
          JobApplication).status = ApplicationStatus.WITHDRAWN then
        .error (.badRequest "Application is already withdrawn")
      else
        .ok (saveApplication
          { (⟨1, 2, 3, 1, none, none, none, ApplicationStatus.ACCEPTED, none⟩ :
              JobApplication) with
            status := ApplicationStatus.WITHDRAWN } c7Apps)) ∧
    (ApplicationService.updateStatus 3 1 ApplicationStatus.REJECTED 9 c7Apps =
      if (⟨1, 2, 3, 1, none, none, none, ApplicationStatus.ACCEPTED, none⟩ :
          JobApplication).status = ApplicationStatus.WITHDRAWN then
        .error (.badRequest "Cannot update a withdrawn application")
      else
        .ok (saveApplication
          { (⟨1, 2, 3, 1, none, none, none, ApplicationStatus.ACCEPTED, none⟩ :
              JobApplication) with
            status := ApplicationStatus.REJECTED,
            status_changed_by := some 9 } c7Apps))) :=
  ⟨⟨rfl, rfl⟩,
    claim_C7_application_transitions c7Apps 1 1 3 9 ApplicationStatus.REJECTED
      _ _ rfl rfl⟩

/-- Tables for C8: an ACTIVE job of company 3, and a resume that exists but
is owned by user 7, not by the caller (user 1). -/
def c8Store : AppState :=
  { jobs := [⟨2, 3, "dev", JobStatus.ACTIVE, JobVisibility.PUBLIC, none, none, none⟩],
    resumes := [⟨4, 7, "cv", 0, false⟩],
    apps := [], nextId := 0 }

/-- C8 as stated is false on the code: applying with a `resume_id` that
exists but belongs to a different actor is reported as
`ForbiddenException "Resume not found or does not belong to you"` — not as
NotFound — and the repository's own unit test asserts exactly this
ForbiddenException.  Concrete run: user 1 applies to live job 2 with user 7's
resume 4. -/
theorem claim_C8_counterexample :
    ApplicationService.apply 1 2 4 none none 0 c8Store =
      .error (.forbidden "Resume not found or does not belong to you") := rfl

/-- C8 amended.  Scoping mismatches on tenant-scoped job lookups are reported
as NotFound (`JobService.findOne` raises
`NotFoundException "Job not found"` whenever no non-deleted job with that id
belongs to the caller's company), but the resume-ownership check inside
`ApplicationService.apply` reports a mismatch as Forbidden
(`ForbiddenException "Resume not found or does not belong to you"`), not as
NotFound. -/
theorem claim_C8_amended (jobs : List JobListing) (c jid : Nat)
    (st : AppState) (u j r : Nat) (aj vu : Option String) (now : Int)
    (job : JobListing)
    (hnomatch : ∀ jb ∈ jobs, ¬(jb.id = jid ∧ jb.companyId = c ∧
      jb.deleted_at = none))
    (hjob : st.jobs.find? (fun jb => decide (jb.id = j ∧
      jb.status = JobStatus.ACTIVE ∧ jb.deleted_at = none)) = some job)
    (hdl : deadlineExceeded job now = false)
    (hres : st.resumes.find? (fun rr => decide (rr.id = r ∧
      rr.userId = u)) = none) :
    JobService.findOne c jid jobs = .error (.notFound "Job not found") ∧
    ApplicationService.apply u j r aj vu now st =
      .error (.forbidden "Resume not found or does not belong to you") := by
  constructor
  · unfold JobService.findOne
    rw [List.find?_eq_none.mpr
      (fun jb hjb => by simpa using hnomatch jb hjb)]
  · unfold ApplicationService.apply
    simp only [hjob, hres, hdl]
    rw [if_neg Bool.false_ne_true]

/-- Witness for the amended C8: job 2 belongs to company 9, the caller acts
for company 3; and in `c8Store` the resume lookup for user 1 fails. -/
theorem claim_C8_witness :
    ((∀ jb ∈ [(⟨2, 9, "dev", JobStatus.ACTIVE, JobVisibility.PUBLIC, none,
        none, none⟩ : JobListing)], ¬(jb.id = 2 ∧ jb.companyId = 3 ∧
        jb.deleted_at = none)) ∧
      c8Store.jobs.find? (fun jb => decide (jb.id = 2 ∧
        jb.status = JobStatus.ACTIVE ∧ jb.deleted_at = none)) =
        some ⟨2, 3, "dev", JobStatus.ACTIVE, JobVisibility.PUBLIC, none, none, none⟩ ∧
      deadlineExceeded ⟨2, 3, "dev", JobStatus.ACTIVE, JobVisibility.PUBLIC,
        none, none, none⟩ 0 = false ∧
      c8Store.resumes.find? (fun rr => decide (rr.id = 4 ∧
        rr.userId = 1)) = none) ∧
    (JobService.findOne 3 2
        [⟨2, 9, "dev", JobStatus.ACTIVE, JobVisibility.PUBLIC, none, none, none⟩] =
        .error (.notFound "Job not found") ∧
      ApplicationService.apply 1 2 4 none none 0 c8Store =
        .error (.forbidden "Resume not found or does not belong to you")) :=
  ⟨⟨by decide, rfl, rfl, rfl⟩,
    claim_C8_amended _ 3 2 c8Store 1 2 4 none none 0 _
      (by decide) rfl rfl rfl⟩

/-- Job lookup by primary key. -/
def findJobById (jid : Nat) (st : TenantState) : Option JobListing :=
  st.jobs.find? (fun jb => decide (jb.id = jid))

/-- C9.  A job created with a question-bank reference snapshots the bank's
question list by value: the created job's `screening_questions_json` equals
the bank's `questions_json` at creation time, and any subsequent
`QuestionBankService.update` (there is no question-bank delete endpoint in
the service) leaves the stored job row — snapshot included — bit-for-bit
unchanged. -/
theorem claim_C9_snapshot_immutable (st st1 st2 : TenantState)
    (c u qid jid c2 q2 : Nat) (dto : CreateJobDto)
    (udto : UpdateQuestionBankDto) (qb : QuestionBank)
    (hbound : ∀ jb ∈ st.jobs, jb.id < st.nextId)
    (hq : dto.question_bank_id = some qid)
    (hqb : st.qbanks.find? (fun b => decide (b.id = qid ∧
      b.companyId = c)) = some qb)
    (hok : JobService.create c u dto st = .ok (st1, jid))
    (hupd : QuestionBankService.update c2 q2 udto st1 = .ok st2) :
    ∃ jb, findJobById jid st1 = some jb ∧
      jb.screening_questions_json = some qb.questions_json ∧
      findJobById jid st2 = some jb := by
  unfold JobService.create at hok
  rw [hq] at hok
  simp only [hqb] at hok
  obtain ⟨h1, h2⟩ := Prod.mk.injEq .. ▸ Except.ok.inj hok
  unfold QuestionBankService.update at hupd
  cases hfb : st1.qbanks.find? (fun b => decide (b.id = q2 ∧
      b.companyId = c2)) with
  | none => simp only [hfb] at hupd; cases hupd
  | some b =>
      simp only [hfb] at hupd
      have hjobs2 : st2.jobs = st1.jobs := by
        rw [← Except.ok.inj hupd]
      refine ⟨⟨st.nextId, c, dto.title, dto.status, dto.visibility,
        dto.application_deadline, some qb.questions_json, none⟩, ?_, rfl, ?_⟩
      · unfold findJobById
        rw [← h1, ← h2]
        show (st.jobs ++ [_]).find? _ = _
        rw [find?_append_none _ (List.find?_eq_none.mpr (fun jb hjb => by
          simp only [decide_eq_true_iff]
          exact Nat.ne_of_lt (hbound jb hjb)))]
        exact List.find?_cons_of_pos _ (decide_eq_true rfl)
      · unfold findJobById
        rw [hjobs2, ← h1, ← h2]
        show (st.jobs ++ [_]).find? _ = _
        rw [find?_append_none _ (List.find?_eq_none.mpr (fun jb hjb => by
          simp only [decide_eq_true_iff]
          exact Nat.ne_of_lt (hbound jb hjb)))]
        exact List.find?_cons_of_pos _ (decide_eq_true rfl)

/-- Concrete tenant state for the C9 witness: one question bank with two
questions, no jobs yet. -/
def c9Store : TenantState :=
  { jobs := [], qbanks := [⟨1, 3, "bank", ["q1", "q2"]⟩], nextId := 0 }

/-- The create request of the C9 witness, referencing question bank 1. -/
def c9Dto : CreateJobDto :=
  ⟨"dev", JobStatus.DRAFT, JobVisibility.PUBLIC, none, some 1⟩

/-- The state after the C9 witness creates its job. -/
def c9Store1 : TenantState :=
  { jobs := [⟨0, 3, "dev", JobStatus.DRAFT, JobVisibility.PUBLIC, none,
      some ["q1", "q2"], none⟩],
    qbanks := [⟨1, 3, "bank", ["q1", "q2"]⟩], nextId := 1 }

/-- The state after the C9 witness rewrites the bank's questions. -/
def c9Store2 : TenantState :=
  { jobs := [⟨0, 3, "dev", JobStatus.DRAFT, JobVisibility.PUBLIC, none,
      some ["q1", "q2"], none⟩],
    qbanks := [⟨1, 3, "bank", ["q3"]⟩], nextId := 1 }

/-- Witness for C9: create a job snapshotting bank 1, then overwrite the
bank's questions; the job still carries the original snapshot. -/
theorem claim_C9_witness :
    ((∀ jb ∈ c9Store.jobs, jb.id < c9Store.nextId) ∧
      c9Dto.question_bank_id = some 1 ∧
      c9Store.qbanks.find? (fun b => decide (b.id = 1 ∧ b.companyId = 3)) =
        some ⟨1, 3, "bank", ["q1", "q2"]⟩ ∧
      JobService.create 3 9 c9Dto c9Store = .ok (c9Store1, 0) ∧
      QuestionBankService.update 3 1 ⟨none, some ["q3"]⟩ c9Store1 =
        .ok c9Store2) ∧
    (∃ jb, findJobById 0 c9Store1 = some jb ∧
      jb.screening_questions_json =
        some (⟨1, 3, "bank", ["q1", "q2"]⟩ : QuestionBank).questions_json ∧
      findJobById 0 c9Store2 = some jb) :=
  ⟨⟨by decide, rfl, rfl, rfl, rfl⟩,
    claim_C9_snapshot_immutable c9Store c9Store1 c9Store2 3 9 1 0 3 1 c9Dto
      ⟨none, some ["q3"]⟩ ⟨1, 3, "bank", ["q1", "q2"]⟩
      (by decide) rfl rfl rfl rfl⟩
